import Mathlib

/-!
Verification of the PL241 compiler front end (parser.py): a shallow
embedding of the tokenizer, token stream, parse-tree arena and the
recursive-descent parser, together with theorems settling the frozen
claims about the natural-language specification.

Conventions of the embedding:
* machine strings are Lean `String`, token lists are `List String`;
* Python exceptions become an explicit error type `PErr`; since Python
  exceptions do not roll back mutations, every operation returns the
  mutated state alongside the `Except` result;
* the parse tree is an arena (`List PNode`); a node id is its index;
  `Node.__init__` with a parent appends the new id to the parent's
  children, and `append_children` may append `None` entries, so child
  lists are `List (Option Nat)`;
* unbounded Python loops and recursion take an explicit fuel argument;
  running out of fuel yields an internal error that never occurs in the
  runs the theorems talk about.
-/

namespace PL241

abbrev Token := String

/-! ## Tokenizer (TOKEN_RE and TokenStream.__tokenize)

`TOKEN_RE = (\d+|[a-zA-Z][a-zA-Z0-9]*|<-|==|!=|<=|>=|[^\s+])` applied with
`re.findall`: scan left to right, at each position try the alternatives in
order (maximal munch for the two character classes); on no match skip one
character.  Note the last alternative is the character class `[^\s+]`,
which excludes both whitespace and the plus sign. -/

def isWsChar (c : Char) : Bool :=
  c = ' ' || c = '\t' || c = '\n' || c = '\r' || c = '\x0b' || c = '\x0c'

def isDigitChar (c : Char) : Bool := '0' ≤ c && c ≤ '9'

def isLetterChar (c : Char) : Bool :=
  ('a' ≤ c && c ≤ 'z') || ('A' ≤ c && c ≤ 'Z')

def isAlnumChar (c : Char) : Bool := isLetterChar c || isDigitChar c

/-- Greedy span of a character predicate: the maximal matching run and
the remainder, like the greedy `+`/`*` of the regular expression. -/
def spanChars (p : Char → Bool) : List Char → List Char × List Char
  | [] => ([], [])
  | c :: cs =>
    if p c then
      let s := spanChars p cs
      (c :: s.1, s.2)
    else ([], c :: cs)

/-- The five explicit two-character operator alternatives of TOKEN_RE. -/
def isTwoCharOp (c d : Char) : Bool :=
  (c = '<' && d = '-') || (c = '=' && d = '=') || (c = '!' && d = '=') ||
  (c = '<' && d = '=') || (c = '>' && d = '=')

/-- One findall scan of TOKEN_RE over the character list. The fuel is at
least the length of the list, so it never runs out. -/
def scanTokens : Nat → List Char → List Token
  | 0, _ => []
  | _, [] => []
  | fuel + 1, c :: cs =>
    if isDigitChar c then
      let s := spanChars isDigitChar cs
      String.mk (c :: s.1) :: scanTokens fuel s.2
    else if isLetterChar c then
      let s := spanChars isAlnumChar cs
      String.mk (c :: s.1) :: scanTokens fuel s.2
    else
      match cs with
      | d :: ds =>
        if isTwoCharOp c d then
          String.mk [c, d] :: scanTokens fuel ds
        else if !isWsChar c && c ≠ '+' then
          String.mk [c] :: scanTokens fuel (d :: ds)
        else
          scanTokens fuel (d :: ds)
      | [] =>
        if !isWsChar c && c ≠ '+' then [String.mk [c]] else []

/-- Embeds `TokenStream.__tokenize`: `TOKEN_RE.findall(src)`. -/
def tokenize (src : String) : List Token :=
  scanTokens (src.length + 1) src.data

/-! ## Parse tree arena and parser state

`Node` (parser.py): `type`, `name`, an optional parent back-reference and
an ordered child list.  The constructor with a parent immediately appends
the new node to the parent's child list; `append_children` extends the
child list, and `Parser.__parse_main` extends it with the `None` values
returned by the pass-handlers, so children are `Option` ids. -/

structure PNode where
  type : String
  name : String
  parent : Option Nat
  children : List (Option Nat)
deriving DecidableEq

/-- The combined state: the token stream (`TokenStream.__tokens` and
`TokenStream.__stream_pointer`, the pointer being `None` after the end
of the stream was reached) and the node arena. -/
structure PState where
  tokens : List Token
  ptr : Option Nat
  nodes : List PNode
deriving DecidableEq

/-- The six `EndControlException` subclasses, one per closing construct. -/
inductive BKind
  | thenB | elseB | fiB | rightBracketB | rightBraceB | rightParenB
deriving DecidableEq

/-- Exceptions of the parser: `LanguageSyntaxError`, the boundary
signals, and the internal Python failures (AttributeError / TypeError /
UnboundLocalError / fuel exhaustion of the embedding). -/
inductive PErr
  | syntaxErr (msg : String)
  | boundary (k : BKind)
  | internalErr (msg : String)
deriving DecidableEq

/-! ## TokenStream operations -/

/-- Embeds `TokenStream.next`: if the pointer is `None` the stream re-tokenizes
(pointer back to 0) and then reads; reading past the end sets the
pointer to `None` and raises `StopIteration`, modelled as `none`. -/
def nextFn (s : PState) : PState × Option Token :=
  match s.ptr with
  | some p =>
    match s.tokens.get? p with
    | some t => ({ s with ptr := some (p + 1) }, some t)
    | none => ({ s with ptr := none }, none)
  | none =>
    match s.tokens.get? 0 with
    | some t => ({ s with ptr := some 1 }, some t)
    | none => ({ s with ptr := none }, none)

/-- Embeds `TokenStream.look_ahead`: returns the token at the pointer without
moving it; a missing token (index out of range, or a `None` pointer,
which in Python raises TypeError) is modelled as `none`. -/
def lookAheadFn (s : PState) : PState × Option Token :=
  match s.ptr with
  | some p => (s, s.tokens.get? p)
  | none => (s, none)

/-- Index of the first occurrence of a token, counting from the head of
the list: the search of Python's `list.index`. -/
def idxOfFrom (tok : Token) : List Token → Option Nat
  | [] => none
  | t :: ts => if t = tok then some 0 else (idxOfFrom tok ts).map (· + 1)

/-- Embeds `TokenStream.fastforward`: `self.__stream_pointer =
self.__tokens.index(token)`, a search over the whole token list from its
start; `ValueError` becomes `LanguageSyntaxError('"%s" not found')`. -/
def fastforwardFn (tok : Token) (s : PState) : PState × Except PErr Unit :=
  match idxOfFrom tok s.tokens with
  | some i => ({ s with ptr := some i }, .ok ())
  | none => (s, .error (.syntaxErr ("\"" ++ tok ++ "\" not found")))

/-- Embeds `Node.append_children`: extend the child list of the node with the
given entries.  An id that is not allocated leaves the arena unchanged
(this never happens in the runs below: the Python code always holds a
real node object). -/
def appendChildIds (pid : Nat) (cs : List (Option Nat)) (s : PState) : PState :=
  match s.nodes.get? pid with
  | some nd => { s with nodes := s.nodes.set pid { nd with children := nd.children ++ cs } }
  | none => s

/-- Embeds `Node.__init__`: allocate a fresh node at the next arena index; when
a parent is supplied, `self.parent.append_children(self)` runs as part
of construction. -/
def allocNode (type name : String) (parent : Option Nat) (s : PState) :
    PState × Nat :=
  let nid := s.nodes.length
  let s1 := { s with nodes := s.nodes ++ [⟨type, name, parent, []⟩] }
  match parent with
  | some pid => (appendChildIds pid [some nid] s1, nid)
  | none => (s1, nid)

/-! ## Token classification

`Parser.is_keyword` is the only classification predicate defined in the
source; `Parser.__parse_next_token` also calls `is_control_character`,
`is_relational_operator`, `is_term_operator`, `is_expression_operator`
and `is_other_operator`, which the source file does not define, so those
are modelled from the specification's category table (§3): membership in
the corresponding operator map. -/

def KEYWORDS : List Token :=
  ["array", "call", "do", "else", "fi", "function", "if", "let", "main",
   "od", "procedure", "return", "then", "var", "while"]

/-- Embeds `Parser.is_keyword`. -/
def isKeyword (t : Token) : Bool := KEYWORDS.contains t

/-- Modelled from the spec: `is_control_character`, called by
`__parse_next_token` but not defined in the source file — membership in
`CONTROL_CHARACTERS_MAP` (comma, semicolon, the bracket/brace/paren
pairs). -/
def isControlCharacter (t : Token) : Bool :=
  [",", ";", "[", "]", "\x7b", "\x7d", "(", ")"].contains t

/-- Modelled from the spec: `is_relational_operator`, called by
`__parse_next_token` but not defined in the source file — membership in
`RELATIONAL_OPERATORS`. -/
def isRelationalOperator (t : Token) : Bool :=
  ["==", "!=", "<", "<=", ">", ">="].contains t

/-- Modelled from the spec: `is_term_operator`, called by
`__parse_next_token` but not defined in the source file — membership in
`TERM_OPERATORS_MAP`. -/
def isTermOperator (t : Token) : Bool := t = "*" || t = "/"

/-- Modelled from the spec: `is_expression_operator`, called by
`__parse_next_token` but not defined in the source file — membership in
`EXPRESSION_OPERATORS_MAP`. -/
def isExpressionOperator (t : Token) : Bool := t = "+" || t = "-"

/-- Modelled from the spec: `is_other_operator`, called by
`__parse_next_token` but not defined in the source file — membership in
`OTHER_OPERATORS_MAP` (assignment arrow and period). -/
def isOtherOperator (t : Token) : Bool := t = "<-" || t = "."

/-- Embeds `IDENT_RE.match(token)`: the anchored prefix match of
`[a-zA-Z][a-zA-Z0-9]*` succeeds exactly when the token starts with a
letter. -/
def identMatch (t : Token) : Bool :=
  match t.data with
  | c :: _ => isLetterChar c
  | [] => false

/-- Embeds `NUMBER_RE.match(token)`: the anchored prefix match of `\d+`
succeeds exactly when the token starts with a digit. -/
def numberMatch (t : Token) : Bool :=
  match t.data with
  | c :: _ => isDigitChar c
  | [] => false

/-! ## Leaf resolution (__parse_ident, __parse_number,
__parse_ident_or_number)

Note the control flow of the source: in `__parse_ident` and
`__parse_number` the `raise LanguageSyntaxError(...)` statement is
unconditional — it runs even when the pattern matched and the node was
already created and attached to the parent. -/

/-- Embeds `Parser.__parse_ident`. -/
def parseIdent (parent : Nat) (tok : Token) (s : PState) :
    PState × Except PErr (Option Nat) :=
  let s1 := if identMatch tok then (allocNode "ident" tok (some parent) s).1 else s
  (s1, .error (.syntaxErr ("Expected identified but " ++ tok ++ " found.")))

/-- Embeds `Parser.__parse_number`. -/
def parseNumber (parent : Nat) (tok : Token) (s : PState) :
    PState × Except PErr (Option Nat) :=
  let s1 := if numberMatch tok then (allocNode "number" tok (some parent) s).1 else s
  (s1, .error (.syntaxErr ("Expected number but " ++ tok ++ " found.")))

/-- Embeds `Parser.__parse_ident_or_number`: try the identifier parse, catch
`LanguageSyntaxError`, try the number parse, catch `LanguageSyntaxError`
and raise the combined error.  Only syntax errors are caught; the state
mutated before an exception is kept, as in Python. -/
def parseIdentOrNumber (parent : Nat) (tok : Token) (s : PState) :
    PState × Except PErr (Option Nat) :=
  match parseIdent parent tok s with
  | (s1, .error (.syntaxErr _)) =>
    match parseNumber parent tok s1 with
    | (s2, .error (.syntaxErr _)) =>
      (s2, .error (.syntaxErr
        ("Expected identifier or number, but " ++ tok ++ " is neither")))
    | other => other
  | other => other

/-! ## The recursive-descent engine

`Parser.__parse_next_token` computes a handler name from the token's
category and dispatches via `getattr`.  The keyword handlers present in
the source: `if` runs `__parse_if`; `then`/`else`/`fi` raise their
boundary exceptions; `array`, `call`, `function`, `let`, `procedure`,
`return`, `var`, `while` are `pass` (return `None`); `do` and `od` have
no `__parse_do`/`__parse_od` method, so `getattr` raises AttributeError;
`main` resolves to `__parse_main`, which takes no parent argument, so
the call raises TypeError.  Of the control characters, the right
bracket/brace/paren raise their boundary exceptions and the rest are
`pass`.  A relational-operator token never reaches a handler: line 351
reads `self.RELATIONAL_OPERATORS_MAP`, an attribute that does not exist
(the class defines only `RELATIONAL_OPERATORS`), so dispatching `==`,
`!=`, `<`, `<=`, `>` or `>=` raises AttributeError right in
`__parse_next_token`.  The term, expression and other operator maps do
exist and their handlers are all `pass`.  All loops get fuel; the fuel
never runs out in the runs the theorems below describe. -/

mutual

/-- Embeds `Parser.__parse_next_token`. -/
def parseNextToken : Nat → Token → Nat → PState → PState × Except PErr (Option Nat)
  | 0, _, _, s => (s, .error (.internalErr "fuel"))
  | fuel + 1, tok, parent, s =>
    if isKeyword tok then
      if tok = "if" then
        match parseIf fuel parent s with
        | (s1, .ok n) => (s1, .ok (some n))
        | (s1, .error e) => (s1, .error e)
      else if tok = "then" then (s, .error (.boundary .thenB))
      else if tok = "else" then (s, .error (.boundary .elseB))
      else if tok = "fi" then (s, .error (.boundary .fiB))
      else if tok = "main" then
        (s, .error (.internalErr "TypeError: __parse_main takes no parent"))
      else if tok = "do" || tok = "od" then
        (s, .error (.internalErr "AttributeError: no parse method for token"))
      else (s, .ok none)
    else if isControlCharacter tok then
      if tok = "]" then (s, .error (.boundary .rightBracketB))
      else if tok = "\x7d" then (s, .error (.boundary .rightBraceB))
      else if tok = ")" then (s, .error (.boundary .rightParenB))
      else (s, .ok none)
    else if isRelationalOperator tok then
      (s, .error (.internalErr "AttributeError: RELATIONAL_OPERATORS_MAP"))
    else if isTermOperator tok then (s, .ok none)
    else if isExpressionOperator tok then (s, .ok none)
    else if isOtherOperator tok then (s, .ok none)
    else parseIdentOrNumber parent tok s
termination_by structural fuel _ _ _ => fuel

/-- Embeds `Parser.__parse_if` up to its token loop: build the `if` node (the
constructor already appends it to the parent), build the condition node
(the constructor already appends it to the `if` node), append the
condition node to the `if` node a second time, run the loop, and apply
the post-loop `then`/`fi` checks. -/
def parseIf : Nat → Nat → PState → PState × Except PErr Nat
  | 0, _, s => (s, .error (.internalErr "fuel"))
  | fuel + 1, parent, s =>
    let a1 := allocNode "keyword" "if" (some parent) s
    let ifN := a1.2
    let a2 := allocNode "abstract" "condition" (some ifN) a1.1
    let condN := a2.2
    let s3 := appendChildIds ifN [some condN] a2.1
    match parseIfLoop fuel ifN condN false [] s3 with
    | (s4, .ok r) =>
      if !r.1 then
        (s4, .error (.syntaxErr "No matching \"then\" was found for the if."))
      else if !r.2 then
        (s4, .error (.syntaxErr "No matching \"fi\" was found for the if."))
      else (s4, .ok ifN)
    | (s4, .error e) => (s4, .error e)
termination_by structural fuel _ _ => fuel

/-- The `for token in self.__token_stream` loop of `Parser.__parse_if`:
`curN` is `current_node`, `acc` is `children_nodes`, the result is the
pair `(then_found, fi_found)` when the loop ends by exhaustion or by the
`break` in the `fi` handler.  Each handler catches exactly its own
boundary exception; everything else propagates with the state it
mutated. -/
def parseIfLoop : Nat → Nat → Nat → Bool → List (Option Nat) → PState →
    PState × Except PErr (Bool × Bool)
  | 0, _, _, _, _, s => (s, .error (.internalErr "fuel"))
  | fuel + 1, ifN, curN, thenFound, acc, s =>
    match nextFn s with
    | (s1, none) => (s1, .ok (thenFound, false))
    | (s1, some tok) =>
      match parseNextToken fuel tok curN s1 with
      | (s2, .ok v) => parseIfLoop fuel ifN curN thenFound (acc ++ [v]) s2
      | (s2, .error (.boundary .thenB)) =>
        let a := allocNode "keyword" "then" (some ifN) s2
        let s4 := appendChildIds curN acc a.1
        let s5 := appendChildIds ifN [some a.2] s4
        parseIfLoop fuel ifN a.2 true [] s5
      | (s2, .error (.boundary .elseB)) =>
        if !thenFound then
          (s2, .error (.syntaxErr "\"else\" found before the the matching \"then\"."))
        else
          let a := allocNode "keyword" "else" (some ifN) s2
          let s4 := appendChildIds curN acc a.1
          let s5 := appendChildIds ifN [some a.2] s4
          parseIfLoop fuel ifN a.2 thenFound [] s5
      | (s2, .error (.boundary .fiB)) =>
        if !thenFound then
          (s2, .error (.syntaxErr "\"fi\" found before the matching \"then\"."))
        else (appendChildIds curN acc s2, .ok (thenFound, true))
      | (s2, .error e) => (s2, .error e)
termination_by structural fuel _ _ _ _ _ => fuel

end

/-- The `for token in self.__token_stream` loop of `Parser.__parse_main`:
accumulates the handler results (`children_nodes`) and remembers the
last token read (the Python local `token` after the loop; `none` when
the loop body never ran, where line 326 would raise
UnboundLocalError). -/
def parseMainLoop : Nat → Nat → List (Option Nat) → Option Token → PState →
    PState × Except PErr (List (Option Nat) × Option Token)
  | 0, _, _, _, s => (s, .error (.internalErr "fuel"))
  | fuel + 1, rootN, acc, last, s =>
    match nextFn s with
    | (s1, none) => (s1, .ok (acc, last))
    | (s1, some tok) =>
      match parseNextToken fuel tok rootN s1 with
      | (s2, .ok v) => parseMainLoop fuel rootN (acc ++ [v]) (some tok) s2
      | (s2, .error e) => (s2, .error e)

/-- Embeds `Parser.__parse_main`: fast forward to `"main"`, read it, build the
root keyword node (no parent), run the loop, require the last token to
be the period, then append the accumulated children to the root. -/
def parseMain (fuel : Nat) (s : PState) : PState × Except PErr Nat :=
  match fastforwardFn "main" s with
  | (s1, .error e) => (s1, .error e)
  | (s1, .ok ()) =>
    match nextFn s1 with
    | (s2, none) => (s2, .error (.internalErr "stream empty after fastforward"))
    | (s2, some mt) =>
      let a := allocNode "keyword" mt none s2
      match parseMainLoop fuel a.2 [] none a.1 with
      | (s4, .error e) => (s4, .error e)
      | (s4, .ok r) =>
        match r.2 with
        | none => (s4, .error (.internalErr "UnboundLocalError: token"))
        | some lt =>
          if lt ≠ "." then
            (s4, .error (.syntaxErr "Program does not end with a \".\""))
          else (appendChildIds a.2 r.1 s4, .ok a.2)

/-- Embeds `Parser.__parse`: tokenize the source (the `TokenStream` constructor
leaves the pointer at 0) and run `__parse_main` on an empty arena.  The
fuel is ample for every run below. -/
def parse (src : String) : PState × Except PErr Nat :=
  parseMain (2 * (tokenize src).length + 4) ⟨tokenize src, some 0, []⟩

/-! ## Tokens whose handlers are `pass`

The tokens whose dispatched handler exists in the source, consumes
nothing and returns `None`: the keywords with a `pass` body, the
control characters other than the right bracket/brace/paren, and the
term, expression and other operator tokens.  The six relational
operators are excluded: their dispatch raises AttributeError at line
351 (`RELATIONAL_OPERATORS_MAP` is undefined) before any handler is
reached. -/

def plainTok (t : Token) : Bool :=
  ["array", "call", "function", "let", "procedure", "return", "var", "while",
   ",", ";", "[", "\x7b", "(", "*", "/", "+", "-", "<-", "."].contains t

/-! ## Frame property: the parser never changes the kind or label of an
already-allocated node — it only appends new nodes and extends child
lists.  Needed to carry the root node's data through the main loop. -/

def keepsMeta (s s' : PState) : Prop :=
  ∀ i nd, s.nodes.get? i = some nd →
    ∃ nd', s'.nodes.get? i = some nd' ∧ nd'.type = nd.type ∧ nd'.name = nd.name

/-- Claim C3: tokenizing `"let x <- 1 + 2 ;"` is claimed to yield the
seven tokens `["let","x","<-","1","+","2",";"]`, dropping only
whitespace.  The code's TOKEN_RE ends in the character class `[^\s+]`,
which excludes the plus sign, so the `"+"` token is dropped and only six
tokens are produced.  This theorem evaluates the tokenizer at the
claimed input and records the actual output. -/
theorem tokenize_let_assignment_drops_plus :
    tokenize "let x <- 1 + 2 ;" = ["let", "x", "<-", "1", "2", ";"] := by
  decide

theorem nextFn_live_some {s : PState} {p : Nat} {t : Token}
    (hp : s.ptr = some p) (hg : s.tokens.get? p = some t) :
    nextFn s = ({ s with ptr := some (p + 1) }, some t) := by
  unfold nextFn
  rw [hp]
  simp only [hg]

theorem nextFn_live_none {s : PState} {p : Nat}
    (hp : s.ptr = some p) (hg : s.tokens.get? p = none) :
    nextFn s = ({ s with ptr := none }, none) := by
  unfold nextFn
  rw [hp]
  simp only [hg]

theorem nextFn_restart_some {s : PState} {t : Token}
    (hp : s.ptr = none) (hg : s.tokens.get? 0 = some t) :
    nextFn s = ({ s with ptr := some 1 }, some t) := by
  unfold nextFn
  rw [hp]
  simp only [hg]

theorem nextFn_restart_none {s : PState}
    (hp : s.ptr = none) (hg : s.tokens.get? 0 = none) :
    nextFn s = ({ s with ptr := none }, none) := by
  unfold nextFn
  rw [hp]
  simp only [hg]

theorem idxOfFrom_eq_none_of_not_mem {tok : Token} :
    ∀ {l : List Token}, tok ∉ l → idxOfFrom tok l = none := by
  intro l
  induction l with
  | nil => intro _; rfl
  | cons t ts ih =>
    intro h
    have ht : ¬t = tok := fun he => h (he ▸ List.mem_cons_self t ts)
    have hts : tok ∉ ts := fun hm => h (List.mem_cons_of_mem t hm)
    simp [idxOfFrom, ht, ih hts]

theorem idxOfFrom_get {tok : Token} :
    ∀ {l : List Token} {i : Nat}, idxOfFrom tok l = some i →
      l.get? i = some tok := by
  intro l
  induction l with
  | nil => intro i h; simp [idxOfFrom] at h
  | cons t ts ih =>
    intro i h
    by_cases ht : t = tok
    · simp [idxOfFrom, ht] at h
      subst h; simp [ht]
    · simp [idxOfFrom, ht] at h
      obtain ⟨j, hj, hji⟩ := h
      subst hji
      simpa using ih hj

theorem idxOfFrom_first {tok : Token} :
    ∀ {l : List Token} {i : Nat}, idxOfFrom tok l = some i →
      ∀ j, j < i → l.get? j ≠ some tok := by
  intro l
  induction l with
  | nil => intro i h; simp [idxOfFrom] at h
  | cons t ts ih =>
    intro i h j hj
    by_cases ht : t = tok
    · simp [idxOfFrom, ht] at h
      omega
    · simp [idxOfFrom, ht] at h
      obtain ⟨k, hk, hki⟩ := h
      subst hki
      cases j with
      | zero => simpa using ht
      | succ j' =>
        have := ih hk j' (by omega)
        simpa using this

/-- Claim C6, counterexample: with token list `["a","b","a"]` and the
cursor at position 2, `fastforward "a"` moves the cursor back to
position 0 — strictly before the current position — so the jump
operation does rewind, contrary to the claim that it searches forward
from the current cursor position and never rewinds. -/
theorem fastforward_rewinds_counterexample :
    (fastforwardFn "a" ⟨["a", "b", "a"], some 2, []⟩).1.ptr = some 0 ∧
      (0 : Nat) < 2 := by
  constructor
  · decide
  · decide

/-- Claim C6, amended: `fastforward` moves the cursor to the first
occurrence of the token counting from the start of the whole stream
(which can be earlier than the current cursor), and fails with a
`LanguageSyntaxError` if the token appears nowhere. -/
theorem fastforward_first_occurrence_from_start (tok : Token) (s : PState) :
    (∀ s', fastforwardFn tok s = (s', .ok ()) →
      ∃ i, s'.ptr = some i ∧ s'.tokens.get? i = some tok ∧
        ∀ j, j < i → s'.tokens.get? j ≠ some tok) ∧
    (tok ∉ s.tokens →
      fastforwardFn tok s = (s, .error (.syntaxErr ("\"" ++ tok ++ "\" not found")))) := by
  constructor
  · intro s' h
    unfold fastforwardFn at h
    cases hidx : idxOfFrom tok s.tokens with
    | none => rw [hidx] at h; simp at h
    | some i =>
      rw [hidx] at h
      have hs : s' = { s with ptr := some i } := by
        have := congrArg Prod.fst h
        simpa using this.symm
      subst hs
      exact ⟨i, rfl, idxOfFrom_get hidx, idxOfFrom_first hidx⟩
  · intro hmem
    unfold fastforwardFn
    rw [idxOfFrom_eq_none_of_not_mem hmem]

/-- Claim C6, witness for the amended theorem at concrete inputs. -/
theorem fastforward_first_occurrence_from_start_witness :
    (∃ i, (fastforwardFn "b" ⟨["a", "b", "a"], some 0, []⟩).1.ptr = some i ∧
        (fastforwardFn "b" ⟨["a", "b", "a"], some 0, []⟩).1.tokens.get? i = some "b" ∧
        ∀ j, j < i →
          (fastforwardFn "b" ⟨["a", "b", "a"], some 0, []⟩).1.tokens.get? j ≠ some "b") ∧
      fastforwardFn "z" ⟨["a", "b", "a"], some 0, []⟩ =
        (⟨["a", "b", "a"], some 0, []⟩, .error (.syntaxErr "\"z\" not found")) := by
  constructor
  · have h := (fastforward_first_occurrence_from_start "b"
      ⟨["a", "b", "a"], some 0, []⟩).1
    exact h (fastforwardFn "b" ⟨["a", "b", "a"], some 0, []⟩).1 rfl
  · exact (fastforward_first_occurrence_from_start "z"
      ⟨["a", "b", "a"], some 0, []⟩).2 (by decide)

/-- Claim C9, counterexample: on the stream `["a"]`, the first `next`
yields `"a"`, the second raises the end-of-stream signal (pointer
becomes `None`), and a third `next` call re-tokenizes and yields `"a"`
again — so after the end-of-stream signal a further advance does yield a
token, contrary to the claim. -/
theorem next_restarts_after_end_counterexample :
    (nextFn ⟨["a"], some 0, []⟩).2 = some "a" ∧
      (nextFn (nextFn ⟨["a"], some 0, []⟩).1).2 = none ∧
      (nextFn (nextFn (nextFn ⟨["a"], some 0, []⟩).1).1).2 = some "a" := by
  decide

/-- Claim C9, amended: while the pointer is live, `look_ahead` never
moves it, `next` returns the token at the pointer and moves it forward
by exactly one (never backward), and exhaustion sets the pointer to
`None`; but once the pointer is `None`, a further `next` re-tokenizes
and restarts from the beginning of the stream, so the stream is
single-pass only up to the first end-of-stream signal. -/
theorem token_stream_cursor_behaviour (s : PState) :
    ((lookAheadFn s).1 = s) ∧
    (∀ p t s2, s.ptr = some p → nextFn s = (s2, some t) →
      s2.ptr = some (p + 1) ∧ p < p + 1 ∧ s.tokens.get? p = some t) ∧
    (∀ p s2, s.ptr = some p → nextFn s = (s2, none) → s2.ptr = none) ∧
    (∀ t s2, s.ptr = none → nextFn s = (s2, some t) →
      s2.ptr = some 1 ∧ s.tokens.get? 0 = some t) := by
  refine ⟨?_, ?_, ?_, ?_⟩
  · unfold lookAheadFn
    cases hp : s.ptr <;> simp
  · intro p t s2 hp h
    cases hg : s.tokens.get? p with
    | some u =>
      rw [nextFn_live_some hp hg, Prod.mk.injEq] at h
      obtain ⟨h1, h2⟩ := h
      obtain rfl := Option.some.inj h2
      subst h1
      exact ⟨rfl, by omega, rfl⟩
    | none =>
      rw [nextFn_live_none hp hg, Prod.mk.injEq] at h
      simp at h
  · intro p s2 hp h
    cases hg : s.tokens.get? p with
    | some u =>
      rw [nextFn_live_some hp hg, Prod.mk.injEq] at h
      simp at h
    | none =>
      rw [nextFn_live_none hp hg, Prod.mk.injEq] at h
      obtain ⟨h1, _⟩ := h
      subst h1
      rfl
  · intro t s2 hp h
    cases hg : s.tokens.get? 0 with
    | some u =>
      rw [nextFn_restart_some hp hg, Prod.mk.injEq] at h
      obtain ⟨h1, h2⟩ := h
      obtain rfl := Option.some.inj h2
      subst h1
      exact ⟨rfl, rfl⟩
    | none =>
      rw [nextFn_restart_none hp hg, Prod.mk.injEq] at h
      simp at h

/-- Claim C9, witness for the amended theorem at a concrete stream. -/
theorem token_stream_cursor_behaviour_witness :
    ((lookAheadFn ⟨["a", "b"], some 0, []⟩).1 = ⟨["a", "b"], some 0, []⟩) ∧
      ((nextFn ⟨["a", "b"], some 0, []⟩).1.ptr = some 1 ∧ (0 : Nat) < 0 + 1 ∧
        (["a", "b"] : List Token).get? 0 = some "a") := by
  constructor
  · exact (token_stream_cursor_behaviour ⟨["a", "b"], some 0, []⟩).1
  · have h := (token_stream_cursor_behaviour ⟨["a", "b"], some 0, []⟩).2.1
      0 "a" (nextFn ⟨["a", "b"], some 0, []⟩).1 rfl rfl
    exact ⟨h.1, h.2.1, h.2.2⟩

/-! ## Node construction (Node.__init__ and Node.append_children) -/

/-- Claim C5: leaf resolution is claimed to resolve `"abc123"` to an
`ident` node and `"123"` to a `number` node.  In the code both
`__parse_ident` and `__parse_number` raise `LanguageSyntaxError`
unconditionally (the raise is not guarded by the pattern-match test), so
`__parse_ident_or_number` always falls through both attempts and raises
"Expected identifier or number, but ... is neither" — for well-formed
identifiers and numbers alike.  This theorem evaluates the code at both
tokens from the claim: each call ends in the combined syntax error (the
matched node is still attached to the parent as a side effect before the
raise). -/
theorem ident_or_number_resolution_always_raises :
    (parseIdentOrNumber 0 "abc123" ⟨[], some 0, [⟨"abstract", "factor", none, []⟩]⟩ =
      (⟨[], some 0,
         [⟨"abstract", "factor", none, [some 1]⟩, ⟨"ident", "abc123", some 0, []⟩]⟩,
       .error (.syntaxErr "Expected identifier or number, but abc123 is neither"))) ∧
    (parseIdentOrNumber 0 "123" ⟨[], some 0, [⟨"abstract", "factor", none, []⟩]⟩ =
      (⟨[], some 0,
         [⟨"abstract", "factor", none, [some 1]⟩, ⟨"number", "123", some 0, []⟩]⟩,
       .error (.syntaxErr "Expected identifier or number, but 123 is neither"))) := by
  constructor
  · rfl
  · rfl

/-- Claim C1: parsing the statement fragment
`"if a < b then let x <- 1 else let x <- 2 fi"` is claimed to produce an
`if` node with exactly three children (condition, then, else).  In the
code the first condition token `a` goes through
`__parse_ident_or_number`, whose two attempts both raise
unconditionally, so the whole fragment fails with a fatal syntax error;
no three-child `if` node is ever produced (and the partially built `if`
node already holds its condition child twice, once from the `Node`
constructor and once from the explicit `append_children`).  This theorem
evaluates the dispatch of the fragment's `if` token, with the stream
positioned right after it, and records the full outcome. -/
theorem if_fragment_parse_raises_neither :
    parseNextToken 30 "if" 0
        ⟨["if", "a", "<", "b", "then", "let", "x", "<-", "1",
          "else", "let", "x", "<-", "2", "fi"],
         some 1, [⟨"keyword", "main", none, []⟩]⟩ =
      (⟨["if", "a", "<", "b", "then", "let", "x", "<-", "1",
         "else", "let", "x", "<-", "2", "fi"],
        some 2,
        [⟨"keyword", "main", none, [some 1]⟩,
         ⟨"keyword", "if", some 0, [some 2, some 2]⟩,
         ⟨"abstract", "condition", some 1, [some 3]⟩,
         ⟨"ident", "a", some 2, []⟩]⟩,
       .error (.syntaxErr "Expected identifier or number, but a is neither")) := by
  rfl

/-- Claim C2: every node is claimed to appear in its parent's child list
exactly once.  The program `"main if then fi ."` parses successfully,
yet in the resulting tree the `if` node (id 1) appears twice in the
root's child list and the condition node (id 2) and `then` node (id 3)
each appear twice in the `if` node's child list: the `Node` constructor
appends a node to its parent on construction, and `__parse_if` and
`__parse_main` append the same node again explicitly.  This theorem
evaluates the parse and records the duplicated child entries. -/
theorem parse_duplicate_child_in_built_tree :
    (parse "main if then fi ." =
      (⟨["main", "if", "then", "fi", "."], none,
        [⟨"keyword", "main", none, [some 1, some 1, none]⟩,
         ⟨"keyword", "if", some 0, [some 2, some 2, some 3, some 3]⟩,
         ⟨"abstract", "condition", some 1, []⟩,
         ⟨"keyword", "then", some 1, []⟩]⟩, .ok 0)) ∧
    ((parse "main if then fi .").1.nodes.get? 0).map
        (fun nd => nd.children.count (some 1)) = some 2 ∧
    ((parse "main if then fi .").1.nodes.get? 1).map
        (fun nd => nd.children.count (some 2)) = some 2 := by
  exact ⟨rfl, rfl, rfl⟩

/-- Claim C7: the six boundary signal kinds are pairwise distinct; a
handler waiting for one kind never catches another: the `if` loop, which
waits for the `then`/`else`/`fi` boundaries, passes bracket, brace and
parenthesis boundaries through unchanged (whatever follows in the
stream), while it does catch `then` and `fi` boundaries and completes;
an uncaught boundary reaches the top level unchanged through every
intermediate frame, and a syntax error likewise propagates unchanged to
the top level. -/
theorem boundary_kinds_distinct_and_selective (rest : List Token) (f : Nat) :
    ([BKind.thenB, BKind.elseB, BKind.fiB, BKind.rightBracketB,
      BKind.rightBraceB, BKind.rightParenB].Pairwise (· ≠ ·)) ∧
    ((parseIf (f + 4) 0
        ⟨"]" :: rest, some 0, [⟨"keyword", "main", none, []⟩]⟩).2 =
      .error (.boundary .rightBracketB)) ∧
    ((parseIf (f + 4) 0
        ⟨"\x7d" :: rest, some 0, [⟨"keyword", "main", none, []⟩]⟩).2 =
      .error (.boundary .rightBraceB)) ∧
    ((parseIf (f + 4) 0
        ⟨")" :: rest, some 0, [⟨"keyword", "main", none, []⟩]⟩).2 =
      .error (.boundary .rightParenB)) ∧
    ((parseIf (f + 4) 0
        ⟨["then", "fi"], some 0, [⟨"keyword", "main", none, []⟩]⟩).2 = .ok 1) ∧
    ((parse "main if ] .").2 = .error (.boundary .rightBracketB)) ∧
    ((parse "main abc .").2 =
      .error (.syntaxErr "Expected identifier or number, but abc is neither")) := by
  refine ⟨by decide, rfl, rfl, rfl, rfl, rfl, rfl⟩

/-- Claim C8, counterexample: the program `"main { return } ."` is
syntactically valid under the grammar in the module docstring
(`computation = "main" { varDecl } { funcDecl } "{" statSequence "}" "."`,
with the single statement `return`), but parsing it does not succeed:
the `}` token raises the right-brace boundary signal, which nothing at
the top level catches, so the parse fails — refuting "for every
syntactically valid program, parsing succeeds". -/
theorem parse_valid_program_brace_boundary_escapes :
    (parse "main \x7b return \x7d .").2 = .error (.boundary .rightBraceB) := by
  rfl

/-- Claim C10, counterexample: `then` is a keyword other than `if`, and
the claim says every such keyword's handler returns `None`; but
dispatching `then` raises the then-boundary signal instead of returning
`None` (likewise `else` and `fi`, while `do`, `od` and `main` fail with
missing-method or arity errors). -/
theorem keyword_then_dispatch_raises_not_none :
    parseNextToken 5 "then" 0 ⟨[], some 0, [⟨"keyword", "main", none, []⟩]⟩ =
      (⟨[], some 0, [⟨"keyword", "main", none, []⟩]⟩,
       .error (.boundary .thenB)) := by
  rfl

theorem parseNextToken_plain {tok : Token} (h : plainTok tok = true)
    (fuel parent : Nat) (s : PState) :
    parseNextToken (fuel + 1) tok parent s = (s, .ok none) := by
  have h' : tok ∈ ["array", "call", "function", "let", "procedure", "return",
      "var", "while", ",", ";", "[", "\x7b", "(", "*", "/", "+", "-",
      "<-", "."] := by
    simpa [plainTok] using h
  fin_cases h' <;> rfl

theorem parseNextToken_thenTok (fuel parent : Nat) (s : PState) :
    parseNextToken (fuel + 1) "then" parent s = (s, .error (.boundary .thenB)) := rfl

theorem parseNextToken_fiTok (fuel parent : Nat) (s : PState) :
    parseNextToken (fuel + 1) "fi" parent s = (s, .error (.boundary .fiB)) := rfl

/-- Dispatching a relational operator never reaches a handler: line 351
reads the undefined attribute `RELATIONAL_OPERATORS_MAP`, raising
AttributeError. -/
theorem parseNextToken_relationalTok (fuel parent : Nat) (s : PState) :
    parseNextToken (fuel + 1) "<" parent s =
      (s, .error (.internalErr "AttributeError: RELATIONAL_OPERATORS_MAP")) ∧
    parseNextToken (fuel + 1) "==" parent s =
      (s, .error (.internalErr "AttributeError: RELATIONAL_OPERATORS_MAP")) :=
  ⟨rfl, rfl⟩

/-! ## Shape helpers for the state-passing lemmas -/

theorem appendChildIds_shape (pid : Nat) (cs : List (Option Nat)) (s : PState) :
    ∃ N, appendChildIds pid cs s = ⟨s.tokens, s.ptr, N⟩ := by
  unfold appendChildIds
  cases s.nodes.get? pid with
  | some nd => exact ⟨_, rfl⟩
  | none => exact ⟨s.nodes, rfl⟩

theorem allocNode_shape (ty nm : String) (par : Option Nat) (s : PState) :
    ∃ N, (allocNode ty nm par s).1 = ⟨s.tokens, s.ptr, N⟩ := by
  unfold allocNode
  cases par with
  | none => exact ⟨_, rfl⟩
  | some pid =>
    simp only
    exact appendChildIds_shape pid _ _

theorem get?_append_len (pre l : List Token) :
    (pre ++ l).get? pre.length = l.get? 0 := by
  simp [List.get?_eq_getElem?, List.getElem?_append_right]

theorem appendChildIds_shape2 (pid : Nat) (cs : List (Option Nat))
    (toks : List Token) (ptr : Option Nat) (ns : List PNode) :
    ∃ N, appendChildIds pid cs ⟨toks, ptr, ns⟩ = ⟨toks, ptr, N⟩ ∧
      N.length = ns.length := by
  unfold appendChildIds
  cases (⟨toks, ptr, ns⟩ : PState).nodes.get? pid with
  | some nd => exact ⟨_, rfl, by simp⟩
  | none => exact ⟨ns, rfl, rfl⟩

theorem allocNode_shape2 (ty nm : String) (par : Option Nat)
    (toks : List Token) (ptr : Option Nat) (ns : List PNode) :
    ∃ N, (allocNode ty nm par ⟨toks, ptr, ns⟩).1 = ⟨toks, ptr, N⟩ ∧
      N.length = ns.length + 1 := by
  unfold allocNode
  cases par with
  | none => exact ⟨_, rfl, by simp⟩
  | some pid =>
    simp only
    obtain ⟨N, hN, hlen⟩ := appendChildIds_shape2 pid [some ns.length] toks ptr
      (ns ++ [⟨ty, nm, some pid, []⟩])
    exact ⟨N, hN, by simpa using hlen⟩

/-- The id returned by `Node.__init__` is the arena index at which the
node was allocated: the length of the arena before allocation. -/
theorem allocNode_nid (ty nm : String) (par : Option Nat)
    (toks : List Token) (ptr : Option Nat) (ns : List PNode) :
    (allocNode ty nm par ⟨toks, ptr, ns⟩).2 = ns.length := by
  unfold allocNode
  cases par <;> rfl

theorem nextFn_lit_some {toks : List Token} {p : Nat} {ns : List PNode}
    {t : Token} (hg : toks.get? p = some t) :
    nextFn ⟨toks, some p, ns⟩ = (⟨toks, some (p + 1), ns⟩, some t) :=
  nextFn_live_some rfl hg

theorem nextFn_lit_none {toks : List Token} {p : Nat} {ns : List PNode}
    (hg : toks.get? p = none) :
    nextFn ⟨toks, some p, ns⟩ = (⟨toks, none, ns⟩, none) :=
  nextFn_live_none rfl hg

/-! ## One-step evaluation lemmas for the parser loops -/

theorem parseIfLoop_exhausted {fuel ifN curN : Nat} {tf : Bool}
    {acc : List (Option Nat)} {s s1 : PState} (hn : nextFn s = (s1, none)) :
    parseIfLoop (fuel + 1) ifN curN tf acc s = (s1, .ok (tf, false)) := by
  simp [parseIfLoop, hn]

theorem parseIfLoop_step_ok {fuel ifN curN : Nat} {tf : Bool}
    {acc : List (Option Nat)} {s s1 s2 : PState} {tok : Token} {v : Option Nat}
    (hn : nextFn s = (s1, some tok))
    (hp : parseNextToken fuel tok curN s1 = (s2, .ok v)) :
    parseIfLoop (fuel + 1) ifN curN tf acc s =
      parseIfLoop fuel ifN curN tf (acc ++ [v]) s2 := by
  simp [parseIfLoop, hn, hp]

theorem parseIfLoop_step_then {fuel ifN curN : Nat} {tf : Bool}
    {acc : List (Option Nat)} {s s1 s2 : PState} {tok : Token}
    (hn : nextFn s = (s1, some tok))
    (hp : parseNextToken fuel tok curN s1 = (s2, .error (.boundary .thenB))) :
    parseIfLoop (fuel + 1) ifN curN tf acc s =
      parseIfLoop fuel ifN (allocNode "keyword" "then" (some ifN) s2).2 true []
        (appendChildIds ifN [some (allocNode "keyword" "then" (some ifN) s2).2]
          (appendChildIds curN acc
            (allocNode "keyword" "then" (some ifN) s2).1)) := by
  simp [parseIfLoop, hn, hp]

theorem parseIfLoop_step_fi_nothen {fuel ifN curN : Nat}
    {acc : List (Option Nat)} {s s1 s2 : PState} {tok : Token}
    (hn : nextFn s = (s1, some tok))
    (hp : parseNextToken fuel tok curN s1 = (s2, .error (.boundary .fiB))) :
    parseIfLoop (fuel + 1) ifN curN false acc s =
      (s2, .error (.syntaxErr "\"fi\" found before the matching \"then\".")) := by
  simp [parseIfLoop, hn, hp]

theorem parseMainLoop_exhausted {fuel rootN : Nat} {acc : List (Option Nat)}
    {last : Option Token} {s s1 : PState} (hn : nextFn s = (s1, none)) :
    parseMainLoop (fuel + 1) rootN acc last s = (s1, .ok (acc, last)) := by
  simp [parseMainLoop, hn]

theorem parseMainLoop_step_ok {fuel rootN : Nat} {acc : List (Option Nat)}
    {last : Option Token} {s s1 s2 : PState} {tok : Token} {v : Option Nat}
    (hn : nextFn s = (s1, some tok))
    (hp : parseNextToken fuel tok rootN s1 = (s2, .ok v)) :
    parseMainLoop (fuel + 1) rootN acc last s =
      parseMainLoop fuel rootN (acc ++ [v]) (some tok) s2 := by
  simp [parseMainLoop, hn, hp]

/-- Running the `__parse_if` loop over pass-handler tokens only: every
iteration consumes one token and appends `None` to `children_nodes`;
when the stream is exhausted the loop ends with `fi_found` still
false. -/
theorem parseIfLoop_plain_exhaust :
    ∀ (ts : List Token), (∀ t ∈ ts, plainTok t = true) →
    ∀ (fuel : Nat), ts.length + 1 ≤ fuel →
    ∀ (pre : List Token) (ifN curN : Nat) (tf : Bool) (acc : List (Option Nat))
      (ns : List PNode),
      parseIfLoop fuel ifN curN tf acc ⟨pre ++ ts, some pre.length, ns⟩ =
        (⟨pre ++ ts, none, ns⟩, .ok (tf, false)) := by
  intro ts
  induction ts with
  | nil =>
    intro _ fuel hf pre ifN curN tf acc ns
    simp only [List.length_nil] at hf
    obtain ⟨f, rfl⟩ : ∃ f, fuel = f + 1 := ⟨fuel - 1, by omega⟩
    have hget : (pre ++ ([] : List Token)).get? pre.length = none := by
      rw [get?_append_len]
      rfl
    rw [parseIfLoop_exhausted (nextFn_lit_none hget)]
  | cons t ts' ih =>
    intro hp fuel hf pre ifN curN tf acc ns
    simp only [List.length_cons] at hf
    obtain ⟨f, rfl⟩ : ∃ f, fuel = f + 1 := ⟨fuel - 1, by omega⟩
    obtain ⟨g, rfl⟩ : ∃ g, f = g + 1 := ⟨f - 1, by omega⟩
    have hget : (pre ++ t :: ts').get? pre.length = some t := by
      rw [get?_append_len]
      rfl
    rw [parseIfLoop_step_ok (nextFn_lit_some hget)
      (parseNextToken_plain (hp t (List.mem_cons_self t ts')) g curN _)]
    have e1 : pre ++ t :: ts' = (pre ++ [t]) ++ ts' := by simp
    have e2 : pre.length + 1 = (pre ++ [t]).length := by simp
    rw [e1, e2]
    exact ih (fun u hu => hp u (List.mem_cons_of_mem t hu)) (g + 1)
      (by omega) (pre ++ [t]) ifN curN tf (acc ++ [none]) ns

/-- Running the `__parse_if` loop over pass-handler tokens, then a
`then` token, then pass-handler tokens until exhaustion: the
then-boundary is caught, the `then` branch is started, and the loop ends
with `then_found` true and `fi_found` false. -/
theorem parseIfLoop_plain_then_exhaust :
    ∀ (ts1 : List Token), (∀ t ∈ ts1, plainTok t = true) →
    ∀ (ts2 : List Token), (∀ t ∈ ts2, plainTok t = true) →
    ∀ (fuel : Nat), ts1.length + ts2.length + 2 ≤ fuel →
    ∀ (pre : List Token) (ifN curN : Nat) (acc : List (Option Nat))
      (ns : List PNode),
      ∃ ns', parseIfLoop fuel ifN curN false acc
          ⟨pre ++ ts1 ++ "then" :: ts2, some pre.length, ns⟩ =
        (⟨pre ++ ts1 ++ "then" :: ts2, none, ns'⟩, .ok (true, false)) := by
  intro ts1
  induction ts1 with
  | nil =>
    intro _ ts2 hp2 fuel hf pre ifN curN acc ns
    simp only [List.length_nil, List.nil_append, List.append_nil] at hf ⊢
    obtain ⟨f, rfl⟩ : ∃ f, fuel = f + 1 := ⟨fuel - 1, by omega⟩
    obtain ⟨g, rfl⟩ : ∃ g, f = g + 1 := ⟨f - 1, by omega⟩
    have hget : (pre ++ "then" :: ts2).get? pre.length = some "then" := by
      rw [get?_append_len]
      rfl
    obtain ⟨N1, h1, -⟩ := allocNode_shape2 "keyword" "then" (some ifN)
      (pre ++ "then" :: ts2) (some (pre.length + 1)) ns
    obtain ⟨N2, h2, -⟩ := appendChildIds_shape2 curN acc
      (pre ++ "then" :: ts2) (some (pre.length + 1)) N1
    obtain ⟨N3, h3, -⟩ := appendChildIds_shape2 ifN
      [some (allocNode "keyword" "then" (some ifN)
        ⟨pre ++ "then" :: ts2, some (pre.length + 1), ns⟩).2]
      (pre ++ "then" :: ts2) (some (pre.length + 1)) N2
    refine ⟨N3, ?_⟩
    rw [parseIfLoop_step_then (nextFn_lit_some hget)
      (parseNextToken_thenTok g curN _), h1, h2, h3]
    have e1 : pre ++ "then" :: ts2 = (pre ++ ["then"]) ++ ts2 := by simp
    have e2 : pre.length + 1 = (pre ++ ["then"]).length := by simp
    rw [e1, e2]
    rw [parseIfLoop_plain_exhaust ts2 hp2 (g + 1) (by omega)
      (pre ++ ["then"]) ifN _ true [] N3]
  | cons t ts1' ih =>
    intro hp1 ts2 hp2 fuel hf pre ifN curN acc ns
    simp only [List.length_cons, List.append_assoc, List.cons_append] at hf ⊢
    obtain ⟨f, rfl⟩ : ∃ f, fuel = f + 1 := ⟨fuel - 1, by omega⟩
    obtain ⟨g, rfl⟩ : ∃ g, f = g + 1 := ⟨f - 1, by omega⟩
    have hget : (pre ++ t :: (ts1' ++ "then" :: ts2)).get? pre.length = some t := by
      rw [get?_append_len]
      rfl
    have e1 : pre ++ t :: (ts1' ++ "then" :: ts2) =
        (pre ++ [t]) ++ ts1' ++ "then" :: ts2 := by simp
    have e2 : pre.length + 1 = (pre ++ [t]).length := by simp
    obtain ⟨ns', hns⟩ := ih (fun u hu => hp1 u (List.mem_cons_of_mem t hu))
      ts2 hp2 (g + 1) (by omega) (pre ++ [t]) ifN curN (acc ++ [none]) ns
    refine ⟨ns', ?_⟩
    rw [parseIfLoop_step_ok (nextFn_lit_some hget)
      (parseNextToken_plain (hp1 t (List.mem_cons_self t ts1')) g curN _)]
    rw [e1, e2, hns]

/-- Running the `__parse_if` loop over pass-handler tokens and then a
`fi` token with `then_found` still false: the fi-boundary handler raises
the "fi before then" syntax error with the stream just past the `fi`
token and no node allocated by the loop. -/
theorem parseIfLoop_plain_fi :
    ∀ (ts1 : List Token), (∀ t ∈ ts1, plainTok t = true) →
    ∀ (fuel : Nat), ts1.length + 2 ≤ fuel →
    ∀ (rest pre : List Token) (ifN curN : Nat) (acc : List (Option Nat))
      (ns : List PNode),
      parseIfLoop fuel ifN curN false acc
          ⟨pre ++ ts1 ++ "fi" :: rest, some pre.length, ns⟩ =
        (⟨pre ++ ts1 ++ "fi" :: rest, some ((pre ++ ts1).length + 1), ns⟩,
         .error (.syntaxErr "\"fi\" found before the matching \"then\".")) := by
  intro ts1
  induction ts1 with
  | nil =>
    intro _ fuel hf rest pre ifN curN acc ns
    simp only [List.length_nil, List.nil_append, List.append_nil] at hf ⊢
    obtain ⟨f, rfl⟩ : ∃ f, fuel = f + 1 := ⟨fuel - 1, by omega⟩
    obtain ⟨g, rfl⟩ : ∃ g, f = g + 1 := ⟨f - 1, by omega⟩
    have hget : (pre ++ "fi" :: rest).get? pre.length = some "fi" := by
      rw [get?_append_len]
      rfl
    rw [parseIfLoop_step_fi_nothen (nextFn_lit_some hget)
      (parseNextToken_fiTok g curN _)]
  | cons t ts1' ih =>
    intro hp1 fuel hf rest pre ifN curN acc ns
    simp only [List.length_cons, List.append_assoc, List.cons_append] at hf ⊢
    obtain ⟨f, rfl⟩ : ∃ f, fuel = f + 1 := ⟨fuel - 1, by omega⟩
    obtain ⟨g, rfl⟩ : ∃ g, f = g + 1 := ⟨f - 1, by omega⟩
    have hget : (pre ++ t :: (ts1' ++ "fi" :: rest)).get? pre.length = some t := by
      rw [get?_append_len]
      rfl
    have e1 : pre ++ t :: (ts1' ++ "fi" :: rest) =
        (pre ++ [t]) ++ ts1' ++ "fi" :: rest := by simp
    have e2 : pre.length + 1 = (pre ++ [t]).length := by simp
    have e3 : (pre ++ t :: ts1').length + 1 = ((pre ++ [t]) ++ ts1').length + 1 := by
      simp
    rw [parseIfLoop_step_ok (nextFn_lit_some hget)
      (parseNextToken_plain (hp1 t (List.mem_cons_self t ts1')) g curN _)]
    rw [e1, e2, e3]
    exact ih (fun u hu => hp1 u (List.mem_cons_of_mem t hu)) (g + 1) (by omega)
      rest (pre ++ [t]) ifN curN (acc ++ [none]) ns

/-- Claim C4: for an `if` construct over tokens whose handlers consume
nothing (so the construct itself decides the outcome): if the loop never
meets `then` and the stream runs out, the parse fails with the fatal
syntax error naming the missing `then`; if `then` is met but the stream
runs out before any `fi`, it fails with the fatal syntax error naming
the missing `fi`; and if `fi` arrives before any `then`, it fails with
the fatal syntax error `"fi" found before the matching "then".`, again
naming the missing `then`.  All three are `LanguageSyntaxError`s, not
boundary signals. -/
theorem parse_if_missing_then_or_fi_errors
    (ts1 ts2 rest : List Token) (parent : Nat) (ns : List PNode) (fuel : Nat)
    (hp1 : ∀ t ∈ ts1, plainTok t = true) (hp2 : ∀ t ∈ ts2, plainTok t = true)
    (hf : ts1.length + ts2.length + rest.length + 4 ≤ fuel) :
    (∃ s', parseIf fuel parent ⟨ts1, some 0, ns⟩ =
        (s', .error (.syntaxErr "No matching \"then\" was found for the if."))) ∧
    (∃ s', parseIf fuel parent ⟨ts1 ++ "then" :: ts2, some 0, ns⟩ =
        (s', .error (.syntaxErr "No matching \"fi\" was found for the if."))) ∧
    (∃ s', parseIf fuel parent ⟨ts1 ++ "fi" :: rest, some 0, ns⟩ =
        (s', .error (.syntaxErr "\"fi\" found before the matching \"then\"."))) := by
  refine ⟨?_, ?_, ?_⟩
  · obtain ⟨f, rfl⟩ : ∃ f, fuel = f + 1 := ⟨fuel - 1, by omega⟩
    obtain ⟨N1, h1, hl1⟩ := allocNode_shape2 "keyword" "if" (some parent)
      ts1 (some 0) ns
    obtain ⟨N2, h2, -⟩ := allocNode_shape2 "abstract" "condition"
      (some ns.length) ts1 (some 0) N1
    obtain ⟨N3, h3, -⟩ := appendChildIds_shape2 ns.length [some (ns.length + 1)]
      ts1 (some 0) N2
    have hx := parseIfLoop_plain_exhaust ts1 hp1 f (by omega) []
      ns.length (ns.length + 1) false [] N3
    simp only [List.nil_append, List.length_nil] at hx
    refine ⟨⟨ts1, none, N3⟩, ?_⟩
    simp only [parseIf, allocNode_nid, h1, hl1, h2, h3, hx]
    rfl
  · obtain ⟨f, rfl⟩ : ∃ f, fuel = f + 1 := ⟨fuel - 1, by omega⟩
    obtain ⟨N1, h1, hl1⟩ := allocNode_shape2 "keyword" "if" (some parent)
      (ts1 ++ "then" :: ts2) (some 0) ns
    obtain ⟨N2, h2, -⟩ := allocNode_shape2 "abstract" "condition"
      (some ns.length) (ts1 ++ "then" :: ts2) (some 0) N1
    obtain ⟨N3, h3, -⟩ := appendChildIds_shape2 ns.length [some (ns.length + 1)]
      (ts1 ++ "then" :: ts2) (some 0) N2
    obtain ⟨ns', hx⟩ := parseIfLoop_plain_then_exhaust ts1 hp1 ts2 hp2 f
      (by omega) [] ns.length (ns.length + 1) [] N3
    simp only [List.nil_append, List.length_nil] at hx
    refine ⟨⟨ts1 ++ "then" :: ts2, none, ns'⟩, ?_⟩
    simp only [parseIf, allocNode_nid, h1, hl1, h2, h3, hx]
    rfl
  · obtain ⟨f, rfl⟩ : ∃ f, fuel = f + 1 := ⟨fuel - 1, by omega⟩
    obtain ⟨N1, h1, hl1⟩ := allocNode_shape2 "keyword" "if" (some parent)
      (ts1 ++ "fi" :: rest) (some 0) ns
    obtain ⟨N2, h2, -⟩ := allocNode_shape2 "abstract" "condition"
      (some ns.length) (ts1 ++ "fi" :: rest) (some 0) N1
    obtain ⟨N3, h3, -⟩ := appendChildIds_shape2 ns.length [some (ns.length + 1)]
      (ts1 ++ "fi" :: rest) (some 0) N2
    have hx := parseIfLoop_plain_fi ts1 hp1 f (by omega) rest []
      ns.length (ns.length + 1) [] N3
    simp only [List.nil_append, List.length_nil] at hx
    refine ⟨⟨ts1 ++ "fi" :: rest, some (ts1.length + 1), N3⟩, ?_⟩
    simp only [parseIf, allocNode_nid, h1, hl1, h2, h3, hx]

/-- Claim C4, witness at concrete inputs. -/
theorem parse_if_missing_then_or_fi_errors_witness :
    (∃ s', parseIf 7 0 ⟨["let"], some 0, []⟩ =
        (s', .error (.syntaxErr "No matching \"then\" was found for the if."))) ∧
    (∃ s', parseIf 7 0 ⟨["let"] ++ "then" :: [";"], some 0, []⟩ =
        (s', .error (.syntaxErr "No matching \"fi\" was found for the if."))) ∧
    (∃ s', parseIf 7 0 ⟨["let"] ++ "fi" :: ["("], some 0, []⟩ =
        (s', .error (.syntaxErr "\"fi\" found before the matching \"then\"."))) :=
  parse_if_missing_then_or_fi_errors ["let"] [";"] ["("] 0 [] 7
    (by decide) (by decide) (by decide)

theorem getLast?_or_cons (t : Token) (L : List Token) (last : Option Token) :
    ((t :: L).getLast?).or last = (L.getLast?).or (some t) := by
  cases L with
  | nil => simp
  | cons u M =>
    rw [List.getLast?_cons_cons]
    have h : (u :: M).getLast?.isSome := by
      cases hM : (u :: M).getLast? with
      | none => simp [List.getLast?_eq_none_iff] at hM
      | some x => rfl
    cases hM : (u :: M).getLast? with
    | none => rw [hM] at h; simp at h
    | some x => rfl

/-- Running the `__parse_main` loop over pass-handler tokens only: each
iteration appends the handler's `None` result to `children_nodes` and
remembers the token; exhaustion ends the loop with the accumulated
`None` children and the last token read. -/
theorem parseMainLoop_plain :
    ∀ (L : List Token), (∀ t ∈ L, plainTok t = true) →
    ∀ (fuel : Nat), L.length + 1 ≤ fuel →
    ∀ (pre : List Token) (rootN : Nat) (acc : List (Option Nat))
      (last : Option Token) (ns : List PNode),
      parseMainLoop fuel rootN acc last ⟨pre ++ L, some pre.length, ns⟩ =
        (⟨pre ++ L, none, ns⟩,
         .ok (acc ++ List.replicate L.length none, (L.getLast?).or last)) := by
  intro L
  induction L with
  | nil =>
    intro _ fuel hf pre rootN acc last ns
    simp only [List.length_nil] at hf ⊢
    obtain ⟨f, rfl⟩ : ∃ f, fuel = f + 1 := ⟨fuel - 1, by omega⟩
    have hget : (pre ++ ([] : List Token)).get? pre.length = none := by
      rw [get?_append_len]
      rfl
    rw [parseMainLoop_exhausted (nextFn_lit_none hget)]
    simp
  | cons t L' ih =>
    intro hp fuel hf pre rootN acc last ns
    simp only [List.length_cons] at hf ⊢
    obtain ⟨f, rfl⟩ : ∃ f, fuel = f + 1 := ⟨fuel - 1, by omega⟩
    obtain ⟨g, rfl⟩ : ∃ g, f = g + 1 := ⟨f - 1, by omega⟩
    have hget : (pre ++ t :: L').get? pre.length = some t := by
      rw [get?_append_len]
      rfl
    rw [parseMainLoop_step_ok (nextFn_lit_some hget)
      (parseNextToken_plain (hp t (List.mem_cons_self t L')) g rootN _)]
    have e1 : pre ++ t :: L' = (pre ++ [t]) ++ L' := by simp
    have e2 : pre.length + 1 = (pre ++ [t]).length := by simp
    rw [e1, e2]
    rw [ih (fun u hu => hp u (List.mem_cons_of_mem t hu)) (g + 1) (by omega)
      (pre ++ [t]) rootN (acc ++ [none]) (some t) ns]
    rw [getLast?_or_cons]
    simp [List.replicate_succ]

/-- Claim C10, amended: for every keyword token dispatched at the top
level other than `if`, `then`, `else`, `fi` (whose handlers raise
boundary signals) and `do`, `od`, `main` (whose dispatch fails with
missing-method or arity errors) — that is, for `array`, `call`,
`function`, `let`, `procedure`, `return`, `var`, `while` — and for every
semicolon, comma, bracket-opening, arithmetic or assignment operator
token, the dispatched handler consumes no further tokens and returns no
subtree (`None`, state unchanged); and the main parse loop appends each
such `None` result as a child of the root node.  Relational operators
are not covered: their dispatch raises AttributeError (line 351 reads
the undefined `RELATIONAL_OPERATORS_MAP`). -/
theorem plain_token_dispatch_returns_none
    (tok : Token) (htok : plainTok tok = true) (fuel parent : Nat) (s : PState)
    (ts : List Token) (hts : ∀ t ∈ ts, plainTok t = true) :
    (parseNextToken (fuel + 1) tok parent s = (s, .ok none)) ∧
    (parseMain (ts.length + 2) ⟨"main" :: (ts ++ ["."]), some 0, []⟩ =
      (⟨"main" :: (ts ++ ["."]), none,
        [⟨"keyword", "main", none, List.replicate (ts.length + 1) none⟩]⟩,
       .ok 0)) := by
  constructor
  · exact parseNextToken_plain htok fuel parent s
  · have hplainL : ∀ t ∈ ts ++ ["."], plainTok t = true := by
      intro t ht
      rcases List.mem_append.1 ht with h | h
      · exact hts t h
      · simp only [List.mem_singleton] at h
        subst h
        decide
    have hloop := parseMainLoop_plain (ts ++ ["."]) hplainL (ts.length + 2)
      (by simp) ["main"] 0 [] none
      [⟨"keyword", "main", none, []⟩]
    simp only [List.singleton_append, List.length_cons, List.length_nil,
      List.nil_append, List.length_append, List.length_singleton,
      List.getLast?_concat, Option.or_some, Nat.zero_add] at hloop
    have hff : fastforwardFn "main" ⟨"main" :: (ts ++ ["."]), some 0, []⟩ =
        (⟨"main" :: (ts ++ ["."]), some 0, []⟩, .ok ()) := rfl
    have hnext : nextFn ⟨"main" :: (ts ++ ["."]), some 0, []⟩ =
        (⟨"main" :: (ts ++ ["."]), some 1, []⟩, some "main") := rfl
    simp only [parseMain, hff, hnext, allocNode, List.length_nil,
      List.nil_append]
    rw [hloop]
    simp [appendChildIds]

/-- Claim C10, witness for the amended theorem at concrete inputs. -/
theorem plain_token_dispatch_returns_none_witness :
    (parseNextToken 4 ";" 0 ⟨["x"], some 0, []⟩ = (⟨["x"], some 0, []⟩, .ok none)) ∧
    (parseMain 4 ⟨"main" :: (["let", ","] ++ ["."]), some 0, []⟩ =
      (⟨"main" :: (["let", ","] ++ ["."]), none,
        [⟨"keyword", "main", none, List.replicate 3 none⟩]⟩, .ok 0)) :=
  plain_token_dispatch_returns_none ";" (by decide) 3 0 ⟨["x"], some 0, []⟩
    ["let", ","] (by decide)

theorem keepsMeta_refl (s : PState) : keepsMeta s s :=
  fun _ nd h => ⟨nd, h, rfl, rfl⟩

theorem keepsMeta_of_eq {s s' : PState} (h : s'.nodes = s.nodes) :
    keepsMeta s s' :=
  fun _ nd hi => ⟨nd, h ▸ hi, rfl, rfl⟩

theorem keepsMeta_trans {s t u : PState} (h1 : keepsMeta s t)
    (h2 : keepsMeta t u) : keepsMeta s u := by
  intro i nd hi
  obtain ⟨nd1, hi1, ht1, hn1⟩ := h1 i nd hi
  obtain ⟨nd2, hi2, ht2, hn2⟩ := h2 i nd1 hi1
  exact ⟨nd2, hi2, ht2.trans ht1, hn2.trans hn1⟩

theorem appendChildIds_keepsMeta (pid : Nat) (cs : List (Option Nat))
    (s : PState) : keepsMeta s (appendChildIds pid cs s) := by
  intro i nd hi
  unfold appendChildIds
  cases hg : s.nodes.get? pid with
  | none => exact ⟨nd, hi, rfl, rfl⟩
  | some nd0 =>
    have hlt : pid < s.nodes.length := by
      by_contra hge
      rw [List.get?_eq_getElem?, List.getElem?_eq_none (by omega)] at hg
      exact Option.noConfusion hg
    by_cases hip : pid = i
    · subst hip
      have : nd0 = nd := by
        rw [hg] at hi
        exact Option.some.inj hi
      subst this
      refine ⟨{ nd0 with children := nd0.children ++ cs }, ?_, rfl, rfl⟩
      show (s.nodes.set pid _).get? pid = _
      rw [List.get?_set_of_lt' _ _ hlt]
      simp
    · refine ⟨nd, ?_, rfl, rfl⟩
      show (s.nodes.set pid _).get? i = _
      rw [List.get?_set_of_lt' _ _ hlt]
      simp only [if_neg hip]
      exact hi

theorem allocNode_keepsMeta (ty nm : String) (par : Option Nat) (s : PState) :
    keepsMeta s (allocNode ty nm par s).1 := by
  have hbase : keepsMeta s { s with nodes := s.nodes ++ [⟨ty, nm, par, []⟩] } := by
    intro i nd hi
    have hlt : i < s.nodes.length := by
      by_contra hge
      rw [List.get?_eq_getElem?, List.getElem?_eq_none (by omega)] at hi
      exact Option.noConfusion hi
    refine ⟨nd, ?_, rfl, rfl⟩
    show (s.nodes ++ [(⟨ty, nm, par, []⟩ : PNode)]).get? i = some nd
    rw [List.get?_eq_getElem?, List.getElem?_append, if_pos hlt,
      ← List.get?_eq_getElem?]
    exact hi
  unfold allocNode
  cases par with
  | none => exact hbase
  | some pid =>
    exact keepsMeta_trans hbase (appendChildIds_keepsMeta pid _ _)

theorem parseIdent_keepsMeta (parent : Nat) (tok : Token) (s : PState) :
    keepsMeta s (parseIdent parent tok s).1 := by
  unfold parseIdent
  by_cases h : identMatch tok
  · simp only [h, if_true]
    exact allocNode_keepsMeta _ _ _ _
  · simp only [h, if_false]
    exact keepsMeta_refl s

theorem parseNumber_keepsMeta (parent : Nat) (tok : Token) (s : PState) :
    keepsMeta s (parseNumber parent tok s).1 := by
  unfold parseNumber
  by_cases h : numberMatch tok
  · simp only [h, if_true]
    exact allocNode_keepsMeta _ _ _ _
  · simp only [h, if_false]
    exact keepsMeta_refl s

theorem parseIdentOrNumber_keepsMeta (parent : Nat) (tok : Token)
    (s : PState) : keepsMeta s (parseIdentOrNumber parent tok s).1 := by
  unfold parseIdentOrNumber
  rcases hid : parseIdent parent tok s with ⟨s1, r1⟩
  have h1 := parseIdent_keepsMeta parent tok s
  rw [hid] at h1
  rcases r1 with e | v
  · rcases e with m | k | m
    · rcases hnum : parseNumber parent tok s1 with ⟨s2, r2⟩
      have h2 := parseNumber_keepsMeta parent tok s1
      rw [hnum] at h2
      rcases r2 with e2 | v2
      · rcases e2 with m2 | k2 | m2 <;> simp only [hnum] <;>
          exact keepsMeta_trans h1 h2
      · simp only [hnum]
        exact keepsMeta_trans h1 h2
    · exact h1
    · exact h1
  · exact h1

theorem nextFn_keepsMeta (s : PState) : keepsMeta s (nextFn s).1 :=
  keepsMeta_of_eq (by
    rcases s with ⟨toks, ptr, ns⟩
    rcases ptr with _ | p
    · rcases hg : toks[0]? with _ | t <;> simp [nextFn, hg]
    · rcases hg : toks[p]? with _ | t <;> simp [nextFn, hg])

/-- The whole engine keeps the kind and label of every already-allocated
node, whatever it returns: proved for all four mutually recursive
functions at once by induction on the fuel. -/
theorem parser_keepsMeta : ∀ fuel : Nat,
    (∀ tok parent s, keepsMeta s (parseNextToken fuel tok parent s).1) ∧
    (∀ parent s, keepsMeta s (parseIf fuel parent s).1) ∧
    (∀ ifN curN tf acc s, keepsMeta s (parseIfLoop fuel ifN curN tf acc s).1) ∧
    (∀ rootN acc last s, keepsMeta s (parseMainLoop fuel rootN acc last s).1) := by
  intro fuel
  induction fuel with
  | zero =>
    refine ⟨?_, ?_, ?_, ?_⟩ <;> intros <;> exact keepsMeta_refl _
  | succ f ih =>
    obtain ⟨ihP, ihI, ihL, ihM⟩ := ih
    refine ⟨?_, ?_, ?_, ?_⟩
    · intro tok parent s
      have hIoN := parseIdentOrNumber_keepsMeta parent tok s
      rcases hif : parseIf f parent s with ⟨s1, r1⟩
      have hIf := ihI parent s
      rw [hif] at hIf
      simp only [parseNextToken, hif]
      repeat' split
      all_goals first
        | exact keepsMeta_refl _
        | exact hIf
        | exact hIoN
        | (rename_i heq
           injection heq with hA hB
           subst hA
           exact hIf)
    · intro parent s
      simp only [parseIf]
      set A := allocNode "keyword" "if" (some parent) s with hA
      set B := allocNode "abstract" "condition" (some A.2) A.1 with hB
      set Z := appendChildIds A.2 [some B.2] B.1 with hZ
      have k1 : keepsMeta s A.1 := by
        rw [hA]
        exact allocNode_keepsMeta _ _ _ _
      have k2 : keepsMeta A.1 B.1 := by
        rw [hB]
        exact allocNode_keepsMeta _ _ _ _
      have k3 : keepsMeta B.1 Z := by
        rw [hZ]
        exact appendChildIds_keepsMeta _ _ _
      have h0 := keepsMeta_trans k1 (keepsMeta_trans k2 k3)
      have hl := ihL A.2 B.2 false [] Z
      split
      · rename_i s4 r heq
        rw [heq] at hl
        have hs4 := keepsMeta_trans h0 hl
        split
        · exact hs4
        · split
          · exact hs4
          · exact hs4
      · rename_i s4 e heq
        rw [heq] at hl
        exact keepsMeta_trans h0 hl
    · intro ifN curN tf acc s
      rcases hn : nextFn s with ⟨s1, t?⟩
      have h1 : keepsMeta s s1 := by
        have := nextFn_keepsMeta s
        rw [hn] at this
        exact this
      rcases t? with _ | tok
      · simp only [parseIfLoop, hn]
        exact h1
      · rcases hp : parseNextToken f tok curN s1 with ⟨s2, r⟩
        have h2 : keepsMeta s1 s2 := by
          have := ihP tok curN s1
          rw [hp] at this
          exact this
        rcases r with e | v
        · rcases e with m | k | m
          · simp only [parseIfLoop, hn, hp]
            exact keepsMeta_trans h1 h2
          · rcases k with _ | _ | _ | _ | _ | _
            · simp only [parseIfLoop, hn, hp]
              set A := allocNode "keyword" "then" (some ifN) s2 with hA
              set S4 := appendChildIds curN acc A.1 with hS4
              set S5 := appendChildIds ifN [some A.2] S4 with hS5
              have k1 : keepsMeta s2 A.1 := by
                rw [hA]
                exact allocNode_keepsMeta _ _ _ _
              have k2 : keepsMeta A.1 S4 := by
                rw [hS4]
                exact appendChildIds_keepsMeta _ _ _
              have k3 : keepsMeta S4 S5 := by
                rw [hS5]
                exact appendChildIds_keepsMeta _ _ _
              exact keepsMeta_trans h1 (keepsMeta_trans h2 (keepsMeta_trans k1
                (keepsMeta_trans k2 (keepsMeta_trans k3 (ihL ifN A.2 true [] S5)))))
            · simp only [parseIfLoop, hn, hp]
              split
              · exact keepsMeta_trans h1 h2
              · set A := allocNode "keyword" "else" (some ifN) s2 with hA
                set S4 := appendChildIds curN acc A.1 with hS4
                set S5 := appendChildIds ifN [some A.2] S4 with hS5
                have k1 : keepsMeta s2 A.1 := by
                  rw [hA]
                  exact allocNode_keepsMeta _ _ _ _
                have k2 : keepsMeta A.1 S4 := by
                  rw [hS4]
                  exact appendChildIds_keepsMeta _ _ _
                have k3 : keepsMeta S4 S5 := by
                  rw [hS5]
                  exact appendChildIds_keepsMeta _ _ _
                exact keepsMeta_trans h1 (keepsMeta_trans h2 (keepsMeta_trans k1
                  (keepsMeta_trans k2 (keepsMeta_trans k3 (ihL ifN A.2 tf [] S5)))))
            · simp only [parseIfLoop, hn, hp]
              split
              · exact keepsMeta_trans h1 h2
              · exact keepsMeta_trans h1 (keepsMeta_trans h2
                  (appendChildIds_keepsMeta _ _ _))
            · simp only [parseIfLoop, hn, hp]
              exact keepsMeta_trans h1 h2
            · simp only [parseIfLoop, hn, hp]
              exact keepsMeta_trans h1 h2
            · simp only [parseIfLoop, hn, hp]
              exact keepsMeta_trans h1 h2
          · simp only [parseIfLoop, hn, hp]
            exact keepsMeta_trans h1 h2
        · simp only [parseIfLoop, hn, hp]
          exact keepsMeta_trans h1 (keepsMeta_trans h2
            (ihL ifN curN tf (acc ++ [v]) s2))
    · intro rootN acc last s
      rcases hn : nextFn s with ⟨s1, t?⟩
      have h1 : keepsMeta s s1 := by
        have := nextFn_keepsMeta s
        rw [hn] at this
        exact this
      rcases t? with _ | tok
      · simp only [parseMainLoop, hn]
        exact h1
      · rcases hp : parseNextToken f tok rootN s1 with ⟨s2, r⟩
        have h2 : keepsMeta s1 s2 := by
          have := ihP tok rootN s1
          rw [hp] at this
          exact this
        rcases r with e | v
        · simp only [parseMainLoop, hn, hp]
          exact keepsMeta_trans h1 h2
        · simp only [parseMainLoop, hn, hp]
          exact keepsMeta_trans h1 (keepsMeta_trans h2
            (ihM rootN (acc ++ [v]) (some tok) s2))

theorem fastforwardFn_ok_lit {tok : Token} {toks : List Token}
    {p0 : Option Nat} {ns : List PNode} {s' : PState}
    (h : fastforwardFn tok ⟨toks, p0, ns⟩ = (s', .ok ())) :
    ∃ i, s' = ⟨toks, some i, ns⟩ ∧ toks.get? i = some tok := by
  unfold fastforwardFn at h
  cases hidx : idxOfFrom tok ((⟨toks, p0, ns⟩ : PState)).tokens with
  | none => rw [hidx] at h; simp at h
  | some i =>
    rw [hidx] at h
    refine ⟨i, ?_, idxOfFrom_get hidx⟩
    have := congrArg Prod.fst h
    exact this.symm

/-- Claim C8, amended: whenever parsing succeeds, the returned root is
node 0 of the arena and it has kind `keyword` and label `main` (the
token that `fastforward` positioned the stream on).  The original
claim's universal "for every syntactically valid program, parsing
succeeds" part is refuted by the counterexample theorem. -/
theorem parse_success_root_keyword_main (src : String) (s' : PState)
    (rid : Nat) (h : parse src = (s', .ok rid)) :
    rid = 0 ∧ ∃ nd, s'.nodes.get? 0 = some nd ∧
      nd.type = "keyword" ∧ nd.name = "main" := by
  unfold parse parseMain at h
  rcases hff : fastforwardFn "main" ⟨tokenize src, some 0, []⟩ with ⟨sa, ra⟩
  rcases ra with e | u
  · rw [hff] at h
    simp at h
  · cases u
    obtain ⟨i, hsa, hget⟩ := fastforwardFn_ok_lit hff
    subst hsa
    have hnx := @nextFn_lit_some (tokenize src) i [] "main" hget
    have halloc : allocNode "keyword" "main" none
        ⟨tokenize src, some (i + 1), []⟩ =
        (⟨tokenize src, some (i + 1), [⟨"keyword", "main", none, []⟩]⟩, 0) := rfl
    rcases hloop : parseMainLoop (2 * (tokenize src).length + 4) 0 [] none
        ⟨tokenize src, some (i + 1), [⟨"keyword", "main", none, []⟩]⟩
      with ⟨s4, r4⟩
    have hkeep : keepsMeta
        ⟨tokenize src, some (i + 1), [⟨"keyword", "main", none, []⟩]⟩ s4 := by
      have hk := (parser_keepsMeta (2 * (tokenize src).length + 4)).2.2.2
        0 [] none ⟨tokenize src, some (i + 1), [⟨"keyword", "main", none, []⟩]⟩
      rw [hloop] at hk
      exact hk
    rw [hff] at h
    simp only [hnx, halloc, hloop] at h
    rcases r4 with e4 | pr
    · simp at h
    · rcases pr with ⟨acc, last⟩
      rcases last with _ | lt
      · simp at h
      · by_cases hlt : lt = "."
        · subst hlt
          simp only [ne_eq, not_true_eq_false, if_false, ite_false] at h
          have hs' : appendChildIds 0 acc s4 = s' := by
            have := congrArg Prod.fst h
            exact this
          have hrid : rid = 0 := by
            have := congrArg Prod.snd h
            simp at this
            omega
          refine ⟨hrid, ?_⟩
          have hroot : (⟨tokenize src, some (i + 1),
              [⟨"keyword", "main", none, []⟩]⟩ : PState).nodes.get? 0 =
              some ⟨"keyword", "main", none, []⟩ := rfl
          obtain ⟨nd1, hnd1, ht1, hn1⟩ := hkeep 0 _ hroot
          obtain ⟨nd2, hnd2, ht2, hn2⟩ :=
            appendChildIds_keepsMeta 0 acc s4 0 nd1 hnd1
          rw [← hs']
          exact ⟨nd2, hnd2, by rw [ht2, ht1], by rw [hn2, hn1]⟩
        · simp [hlt] at h

/-- Claim C8, witness for the amended theorem: the program `"main ."`
parses successfully and the theorem yields its root's kind and label. -/
theorem parse_success_root_keyword_main_witness :
    ∃ nd, (parse "main .").1.nodes.get? 0 = some nd ∧
      nd.type = "keyword" ∧ nd.name = "main" :=
  (parse_success_root_keyword_main "main ." (parse "main .").1 0 rfl).2

end PL241
